import Mathlib

/-!
Shallow embedding of the `InstructionParser` mini-language from
`src/aoc_utils.py` (the only non-trivial component of the repository).

Strings are modelled as `List Char`; Python exceptions are modelled with
`Except`.  Each definition carries a comment pointing at the source lines
it embeds.  The regular expressions that the source assembles are of a
fixed, very restricted shape (literal runs and four kinds of capturing
groups), so the matcher is embedded as a structured pattern
(`PatElem`) together with a backtracking engine whose candidate order is
exactly the leftmost-greedy order Python's `re` uses on those fragments.
-/

namespace AocUtils

/-- Lowercase letter, the character class `[a-z]`. -/
def isLowerAZ (c : Char) : Bool := 'a' ≤ c && c ≤ 'z'

/-- Decimal digit, the character class `[0-9]`. -/
def isDigitC (c : Char) : Bool := '0' ≤ c && c ≤ '9'

/-- Identifier-continuation character, the class `[a-z0-9_]` used by the
placeholder regex `%[a-z][a-z0-9_]*:[wpni]` (line 108). -/
def isNameChar (c : Char) : Bool := isLowerAZ c || isDigitC c || c = '_'

/-- One of the four supported type tags, the class `[wpni]` (line 108). -/
def isModeChar (c : Char) : Bool := c = 'w' || c = 'p' || c = 'n' || c = 'i'

/-- Whitespace characters removed by Python's `str.strip()` (the ASCII ones;
the inputs of this library are ASCII). -/
def isPySpace (c : Char) : Bool :=
  c = ' ' || c = '\t' || c = '\n' || c = '\r' || c = '\x0b' || c = '\x0c'

/-- Python `code.strip()` (line 94): drop leading and trailing whitespace. -/
def pyStrip (s : List Char) : List Char :=
  ((s.dropWhile isPySpace).reverse.dropWhile isPySpace).reverse

/-- Python `s.split(sep)` for a one-character separator `sep` (line 94 uses
`"\n"`).  Like Python, empty pieces are kept: `"".split("\n") == [""]` and
`"a\n\nb".split("\n") == ["a","","b"]`.  The result is never empty. -/
def splitOnChar (sep : Char) : List Char → List (List Char)
  | [] => [[]]
  | c :: rest =>
    if c = sep then [] :: splitOnChar sep rest
    else
      match splitOnChar sep rest with
      | r :: rs => (c :: r) :: rs
      | [] => [[c]]

/-- Python `l.split(": ")` (line 97): split on non-overlapping occurrences of
the two-character separator, scanning left to right.  Empty pieces are kept
and the result is never empty. -/
def splitColonSpace : List Char → List (List Char)
  | [] => [[]]
  | [c] => [[c]]
  | c :: d :: rest =>
    if c = ':' && d = ' ' then [] :: splitColonSpace rest
    else
      match splitColonSpace (d :: rest) with
      | r :: rs => (c :: r) :: rs
      | [] => [[c]]

/-- Python `": ".join(pieces)` (line 103). -/
def joinColonSpace : List (List Char) → List Char
  | [] => []
  | [x] => x
  | x :: xs => x ++ ':' :: ' ' :: joinColonSpace xs

/-- `SPECIAL_CHARS = r"\[](){}*+?|^$."` (line 31), in source order; the
backslash is deliberately first so that already-inserted escapes are not
re-escaped. -/
def SPECIAL_CHARS : List Char :=
  ['\\', '[', ']', '(', ')', '{', '}', '*', '+', '?', '|', '^', '$', '.']

/-- One round of `template.replace(c, "\\" + c)` (line 107): the pattern is a
single character, so the left-to-right scan is a per-character expansion. -/
def escapeChar (c : Char) (s : List Char) : List Char :=
  s.foldr (fun x acc => (if x = c then ['\\', c] else [x]) ++ acc) []

/-- The escaping loop of lines 106-107. -/
def escapeSpecial (s : List Char) : List Char :=
  SPECIAL_CHARS.foldl (fun acc c => escapeChar c acc) s

/-- Attempt to match the placeholder regex `%[a-z][a-z0-9_]*:[wpni]`
(line 108) at the head of `s`; on success return the matched text and the
rest of the input.  Greedy `[a-z0-9_]*` is the maximal run; regex
backtracking over that star can never produce a different match because a
shorter run would require `:` to equal a character of the class
`[a-z0-9_]`, which is impossible. -/
def matchPlaceholderAt (s : List Char) : Option (List Char × List Char) :=
  match s with
  | p :: c :: rest =>
    if p = '%' && isLowerAZ c then
      match rest.dropWhile isNameChar with
      | x :: m :: rest' =>
        if x = ':' && isModeChar m then
          some (p :: c :: (rest.takeWhile isNameChar ++ [x, m]), rest')
        else none
      | _ => none
    else none
  | _ => none

/-- Scanner for `re.split(r"(%[a-z][a-z0-9_]*:[wpni])", template)` (line 108):
walk the input looking for the leftmost placeholder occurrence, emit the text
before it, the captured placeholder, and continue.  `fuel` only bounds the
recursion; `fuel = length of the input` is always sufficient because every
step consumes at least one character. -/
def scanTemplate : Nat → List Char → List Char → List (List Char)
  | 0, acc, s => [acc.reverse ++ s]
  | fuel + 1, acc, s =>
    match s with
    | [] => [acc.reverse]
    | c :: rest =>
      match matchPlaceholderAt (c :: rest) with
      | some (ph, rest') => acc.reverse :: ph :: scanTemplate fuel [] rest'
      | none => scanTemplate fuel (c :: acc) rest

/-- `tokens = re.split(r"(%[a-z][a-z0-9_]*:[wpni])", template)` (line 108):
the non-matching stretches interleaved with the captured placeholders. -/
def splitTemplate (s : List Char) : List (List Char) :=
  scanTemplate s.length [] s

/-- `re.fullmatch(r"%([a-z][a-z0-9_]*):([wpni])", t)` (line 118): the whole
token must be a placeholder; on success return the two captured groups
(variable identifier and type tag).  As above, backtracking over the greedy
star cannot yield any other decomposition. -/
def fullmatchPlaceholder (t : List Char) : Option (List Char × Char) :=
  match t with
  | p :: c :: rest =>
    if p = '%' && isLowerAZ c then
      match rest.dropWhile isNameChar with
      | x :: m :: tail =>
        if x = ':' && isModeChar m && tail.isEmpty then
          some (c :: rest.takeWhile isNameChar, m)
        else none
      | _ => none
    else none
  | _ => none

/-- One element of the assembled pattern (the code keeps the pattern as a
list of regex-source fragments, line 110-130, joins it and compiles it at
line 131; the leading `"^"` and trailing `"$"` are redundant under
`fullmatch` and are left implicit in the whole-input matching semantics):
  * `lit s`    — an escaped literal stretch appended at line 116;
  * `groupP`   — `([a-z]+(?: [a-z]+)*)`, line 120;
  * `groupW`   — `([a-z]+)`, line 122;
  * `groupN`   — `([0-9]+)`, line 124;
  * `groupI`   — `(-?[0-9]+)`, line 126. -/
inductive PatElem where
  | lit (s : List Char)
  | groupP
  | groupW
  | groupN
  | groupI
deriving DecidableEq

/-- Whether a pattern element is a capturing group. -/
def PatElem.isGroup : PatElem → Bool
  | .lit _ => false
  | _ => true

/-- The Python exceptions that can escape `InstructionParser.__init__`. -/
inductive CompileError where
  /-- Line 99 intends `ValueError(f"Incorrectly formatted rule {line}")`, but
  `line` is undefined (the loop variable is `l`), so evaluating the f-string
  raises `NameError("name 'line' is not defined")` — an error that carries no
  reference to the offending line. -/
  | nameErrorLineUndefined
  /-- Line 102: `ValueError("Can't have a rule named 'rule'")`. -/
  | reservedRuleName
  /-- Line 128: `ValueError(f"the mode {mode} is not supported")`. -/
  | unsupportedMode (m : Char)
  /-- Line 118: `re.fullmatch(...)` returned `None`, so `.groups()` raises
  `AttributeError` (reachable only for a token that starts with `%` but is
  not a whole placeholder). -/
  | attributeError
deriving DecidableEq

/-- The dispatch on the type tag at lines 119-128, producing the regex
fragment appended for one placeholder. -/
def modePattern (mode : Char) : Except CompileError PatElem :=
  if mode = 'p' then .ok .groupP
  else if mode = 'w' then .ok .groupW
  else if mode = 'n' then .ok .groupN
  else if mode = 'i' then .ok .groupI
  else .error (.unsupportedMode mode)

/-- The token loop of lines 112-129: empty tokens are skipped, tokens not
starting with `%` are appended to the pattern as literals, and placeholder
tokens are matched, dispatched on their type tag and recorded in the
variable list.  Returns the variable list and the pattern, both in emission
order. -/
def processTokens : List (List Char) → Except CompileError (List (List Char × Char) × List PatElem)
  | [] => .ok ([], [])
  | t :: ts =>
    match t with
    | [] => processTokens ts
    | c :: _ =>
      if c ≠ '%' then
        match processTokens ts with
        | .error e => .error e
        | .ok (vs, ps) => .ok (vs, .lit t :: ps)
      else
        match fullmatchPlaceholder t with
        | none => .error .attributeError
        | some (nm, mode) =>
          match modePattern mode with
          | .error e => .error e
          | .ok pe =>
            match processTokens ts with
            | .error e => .error e
            | .ok (vs, ps) => .ok ((nm, mode) :: vs, pe :: ps)

/-- Template compilation (lines 105-130): escape the special characters,
split out the placeholders, then process the tokens. -/
def compileTemplate (template : List Char) :
    Except CompileError (List (List Char × Char) × List PatElem) :=
  processTokens (splitTemplate (escapeSpecial template))

/-- One compiled rule, an element of `self.rules` (line 131): the rule name,
the `(identifier, type-tag)` list in emission order (called `variables` in
the source; that word is a reserved command name in Lean), and the matcher. -/
structure CompiledRule where
  name : List Char
  vars : List (List Char × Char)
  pattern : List PatElem
deriving DecidableEq

/-- Compilation of a single specification line (lines 96-131 of the loop
body): split on `": "`, reject a separator-less line (the buggy raise at
line 99), reject the reserved name `rule` (line 101), rejoin the template
(line 103) and compile it. -/
def compileLine (l : List Char) : Except CompileError CompiledRule :=
  match splitColonSpace l with
  | [] => .error .nameErrorLineUndefined
  | [_] => .error .nameErrorLineUndefined
  | name :: rest =>
    if name = "rule".data then .error .reservedRuleName
    else
      match compileTemplate (joinColonSpace rest) with
      | .error e => .error e
      | .ok (vars, pats) => .ok ⟨name, vars, pats⟩

/-- Left-to-right effectful map for `Except`: the shape shared by the
`__init__` loop (append to `self.rules`, line 131) and by the list
comprehensions of `match_list`/`match_block` — the first exception aborts
everything and no partial list survives. -/
def exceptMap (f : α → Except ε β) : List α → Except ε (List β)
  | [] => .ok []
  | x :: xs =>
    match f x with
    | .error e => .error e
    | .ok y =>
      match exceptMap f xs with
      | .error e => .error e
      | .ok ys => .ok (y :: ys)

/-- `InstructionParser.__init__` (lines 88-131): strip the source, split it
on newlines (keeping empty pieces, as Python's `split("\n")` does) and
compile every line in order. -/
def compile (code : List Char) : Except CompileError (List CompiledRule) :=
  exceptMap compileLine (splitOnChar '\n' (pyStrip code))

/-! ### The matcher

Semantics of the regular expression assembled at lines 110-131 and run
with `pattern.fullmatch(string)` at line 141.  A literal fragment of the
pattern consists of ordinary characters and `\c` escape pairs (only those
are ever produced by the escaping at lines 106-107), and each escape pair
matches the escaped character literally.  A capturing group consumes a
prefix satisfying its character-class grammar.  Python's backtracking
tries the alternatives of each of the four group fragments in
leftmost-greedy order, which for these particular fragments is exactly
the decreasing order of consumed length:

  * `([a-z]+)` and `([0-9]+)`: the single greedy `+` prefers longer runs;
  * `(-?[0-9]+)`: greedy `-?` takes the minus sign when present, and when
    the input starts with `-` the sign-less alternative can match nothing,
    so again the candidates are the valid prefixes, longest first;
  * `([a-z]+(?: [a-z]+)*)`: the matchable prefixes of a fixed input are
    determined by their length, and the standard backtracking order
    (shrink the last greedy `[a-z]+`, then drop the last `(?: ...)`
    iteration, and so on) enumerates them in strictly decreasing length.
-/

/-- Match an (escaped) literal pattern fragment against the head of the
input, interpreting `\c` as the literal character `c`; return the remaining
input on success. -/
def litConsume : List Char → List Char → Option (List Char)
  | [], input => some input
  | c :: rest, input =>
    if c = '\\' then
      match rest, input with
      | e :: rest', d :: input' => if d = e then litConsume rest' input' else none
      | _, _ => none
    else
      match input with
      | d :: input' => if d = c then litConsume rest input' else none
      | [] => none

/-- Whether a string is one or more lowercase words separated by single
spaces — the language of `[a-z]+(?: [a-z]+)*`. -/
def isPhrase (s : List Char) : Bool :=
  (splitOnChar ' ' s).all (fun w => !w.isEmpty && w.all isLowerAZ)

/-- The language of the capturing group of a pattern element: the strings
the group can consume (empty for a literal element, which captures
nothing). -/
def tokOK : PatElem → List Char → Bool
  | .lit _, _ => false
  | .groupP, t => isPhrase t
  | .groupW, t => !t.isEmpty && t.all isLowerAZ
  | .groupN, t => !t.isEmpty && t.all isDigitC
  | .groupI, t =>
    match t with
    | c :: ds => if c = '-' then !ds.isEmpty && ds.all isDigitC else t.all isDigitC
    | [] => false

/-- The candidate consumptions of one capturing group on `input`, as
`(captured, rest)` pairs in the order Python's backtracking tries them:
valid prefixes, longest first (see the section comment above). -/
def groupCandidates (e : PatElem) (input : List Char) : List (List Char × List Char) :=
  (List.range (input.length + 1)).reverse.filterMap fun k =>
    if tokOK e (input.take k) then some (input.take k, input.drop k) else none

/-- `pattern.fullmatch(string)` (line 141): match the whole input against the
element list; on success return the list of captured groups, in group order.
Backtracking is depth-first over each group's candidate list, which is
Python's leftmost-greedy order. -/
def matchElems : List PatElem → List Char → Option (List (List Char))
  | [], input => if input.isEmpty then some [] else none
  | PatElem.lit s :: rest, input =>
    match litConsume s input with
    | some input' => matchElems rest input'
    | none => none
  | e :: rest, input =>
    (groupCandidates e input).findSome? fun tr =>
      (matchElems rest tr.2).map fun caps => tr.1 :: caps

/-- Python `int(t)` on a token drawn from `-?[0-9]+` — the only strings the
code ever converts (lines 149-150): an optional minus sign followed by a
digit run, value read in base 10 (so `int("-0") == 0`). -/
def natOfDigits (ds : List Char) : Nat :=
  ds.foldl (fun a c => a * 10 + (c.toNat - 48)) 0

/-- Python `int(...)` as used at line 150. -/
def pyInt (s : List Char) : Int :=
  match s with
  | c :: rest => if c = '-' then -(natOfDigits rest : Int) else (natOfDigits s : Int)
  | [] => 0

/-- A value stored in the result dictionary: a string for `w`/`p` variables,
an integer for `n`/`i` variables (lines 147-150). -/
inductive Value where
  | str (s : List Char)
  | int (z : Int)
deriving DecidableEq

/-- The result dictionary `out` of `match` (line 145), as an
insertion-ordered association list — the representation of a Python dict. -/
abbrev Dict := List (List Char × Value)

/-- Python dict assignment `out[k] = v`: update in place if the key is
present, otherwise append. -/
def dictInsert (d : List (List Char × Value)) (k : List Char) (v : Value) :
    List (List Char × Value) :=
  match d with
  | [] => [(k, v)]
  | (k', v') :: rest =>
    if k' = k then (k, v) :: rest else (k', v') :: dictInsert rest k v

/-- Python dict lookup `d[k]`. -/
def dictLookup (d : List (List Char × Value)) (k : List Char) : Option Value :=
  match d with
  | [] => none
  | (k', v) :: rest => if k' = k then some v else dictLookup rest k

/-- The Python exceptions that can escape `InstructionParser.match`. -/
inductive MatchError where
  /-- Line 157: `ValueError(f"The line {string} isn't matched by any
  pattern")` — the error carries the unmatched line. -/
  | noMatch (line : List Char)
  /-- Line 152: `ValueError(f"the mode {mode} is not supported")`. -/
  | unsupportedMode (m : Char)
deriving DecidableEq

/-- The `for ... in zip(variables, match.groups())` loop of lines 146-152:
store each captured value under its variable name, as a string for `w`/`p`
and as an integer for `n`/`i`; any other type tag raises (line 152).  Like
`zip`, the loop stops at the shorter list. -/
def fillVars : List (List Char × Char) → List (List Char) → Dict →
    Except MatchError Dict
  | [], _, out => .ok out
  | _ :: _, [], out => .ok out
  | (vn, mode) :: vs, tok :: toks, out =>
    if mode = 'p' || mode = 'w' then
      fillVars vs toks (dictInsert out vn (.str tok))
    else if mode = 'n' || mode = 'i' then
      fillVars vs toks (dictInsert out vn (.int (pyInt tok)))
    else .error (.unsupportedMode mode)

/-- The rule loop of `InstructionParser.match` (lines 140-157): try each
rule's matcher in order; on the first full match build the result
dictionary, starting from `{"rule": name}` (line 145); if no rule matches,
raise the `NoMatchError` carrying the line (line 157). -/
def matchRules : List CompiledRule → List Char → Except MatchError Dict
  | [], line => .error (.noMatch line)
  | r :: rs, line =>
    match matchElems r.pattern line with
    | none => matchRules rs line
    | some caps => fillVars r.vars caps [("rule".data, .str r.name)]

/-- The two output shapes of `match` (lines 153-156): the dictionary itself
when `as_dict` is true, otherwise the `DataObj` attribute view over the same
mapping (class `DataObj`, lines 34-37, stores the dictionary unchanged as
`__dict__`). -/
inductive MatchOut where
  | dataObj (d : Dict)
  | dict (d : Dict)
deriving DecidableEq

/-- `InstructionParser.match(string, as_dict)` (lines 133-157). -/
def instrMatch (rules : List CompiledRule) (string : List Char)
    (as_dict : Bool) : Except MatchError MatchOut :=
  match matchRules rules string with
  | .error e => .error e
  | .ok out => .ok (if as_dict then .dict out else .dataObj out)

/-- `InstructionParser.match_list` (lines 159-161): the list comprehension
`[self.match(s, as_dict) for s in l]` — apply `match` to every element in
order; the first exception aborts the whole call. -/
def match_list (rules : List CompiledRule) (l : List (List Char))
    (as_dict : Bool) : Except MatchError (List MatchOut) :=
  exceptMap (fun s => instrMatch rules s as_dict) l

/-- `InstructionParser.match_block` (lines 163-165): split the block on
newlines, drop empty lines (`if s != ""`), then behave as `match_list`. -/
def match_block (rules : List CompiledRule) (b : List Char)
    (as_dict : Bool) : Except MatchError (List MatchOut) :=
  exceptMap (fun s => instrMatch rules s as_dict)
    ((splitOnChar '\n' b).filter (fun s => !s.isEmpty))

/-! ### Auxiliary observations used to state the claims -/

/-- Whether a string contains the substring `": "` — the separator required
of every rule-specification line. -/
def hasColonSpace : List Char → Bool
  | [] => false
  | [_] => false
  | c :: d :: rest => (c = ':' && d = ' ') || hasColonSpace (d :: rest)

/-- Whether a compilation outcome is the unsupported-type-tag error of
line 128. -/
def isUnsupportedErr : Except CompileError α → Bool
  | .error (.unsupportedMode _) => true
  | _ => false

/-- Whether an `Except` outcome is an error. -/
def isErrC (r : Except CompileError α) : Bool :=
  match r with
  | .error _ => true
  | .ok _ => false

/-- Python's substring test `needle in hay` (used to state whether an error
message identifies an offending line). -/
def isSubstringOf (needle : List Char) : List Char → Bool
  | [] => needle.isEmpty
  | c :: rest => needle.isPrefixOf (c :: rest) || isSubstringOf needle rest

/-- The message of the exception actually raised, character for character
(used to state that an error does or does not identify an offending line).
`nameErrorLineUndefined` is CPython's message for evaluating the undefined
name `line` in the f-string at line 99. -/
def CompileError.message : CompileError → List Char
  | .nameErrorLineUndefined => "name 'line' is not defined".data
  | .reservedRuleName => "Can't have a rule named 'rule'".data
  | .unsupportedMode m => "the mode ".data ++ [m] ++ " is not supported".data
  | .attributeError => "'NoneType' object has no attribute 'groups'".data

/-! ### General lemmas about the embedding's building blocks -/

theorem exceptMap_ok_spec (f : α → Except ε β) :
    ∀ (l : List α) (res : List β), exceptMap f l = .ok res →
      res.length = l.length ∧
      ∀ k (h1 : k < l.length) (h2 : k < res.length),
        f (l.get ⟨k, h1⟩) = .ok (res.get ⟨k, h2⟩) := by
  intro l
  induction l with
  | nil =>
    intro res h
    simp only [exceptMap] at h
    cases h
    exact ⟨rfl, fun k h1 _ => absurd h1 (Nat.not_lt_zero k)⟩
  | cons x xs ih =>
    intro res h
    simp only [exceptMap] at h
    cases hx : f x with
    | error e => rw [hx] at h; cases h
    | ok y =>
      rw [hx] at h
      cases hxs : exceptMap f xs with
      | error e => rw [hxs] at h; cases h
      | ok ys =>
        rw [hxs] at h
        cases h
        obtain ⟨hlen, hget⟩ := ih ys hxs
        refine ⟨by simp [hlen], fun k h1 h2 => ?_⟩
        cases k with
        | zero => simpa using hx
        | succ k =>
          simpa using hget k (Nat.lt_of_succ_lt_succ h1) (Nat.lt_of_succ_lt_succ h2)

theorem exceptMap_error_of_mem (f : α → Except ε β) (x : α) (e : ε) :
    ∀ (l : List α), x ∈ l → f x = .error e →
      ∃ e', exceptMap f l = .error e' := by
  intro l
  induction l with
  | nil => intro hmem; cases hmem
  | cons y ys ih =>
    intro hmem hfx
    simp only [exceptMap]
    cases hy : f y with
    | error e' => exact ⟨e', rfl⟩
    | ok v =>
      rcases List.mem_cons.mp hmem with hxy | hxs
      · rw [hxy] at hfx; rw [hfx] at hy; cases hy
      · obtain ⟨e', he'⟩ := ih hxs hfx
        rw [he']
        exact ⟨e', rfl⟩

theorem findSome?_eq_some_mem (f : α → Option β) :
    ∀ (l : List α) (b : β), l.findSome? f = some b → ∃ a ∈ l, f a = some b := by
  intro l
  induction l with
  | nil => intro b h; simp [List.findSome?] at h
  | cons x xs ih =>
    intro b h
    rw [List.findSome?_cons] at h
    cases hx : f x with
    | some y => rw [hx] at h; cases h; exact ⟨x, List.mem_cons_self x xs, hx⟩
    | none =>
      rw [hx] at h
      obtain ⟨a, ha, hfa⟩ := ih b h
      exact ⟨a, List.mem_cons_of_mem x ha, hfa⟩

theorem splitColonSpace_ne_nil : ∀ s, splitColonSpace s ≠ [] := by
  intro s
  match s with
  | [] => simp [splitColonSpace]
  | [c] => simp [splitColonSpace]
  | c :: d :: rest =>
    simp only [splitColonSpace]
    split
    · simp
    · split <;> simp

theorem joinColonSpace_cons_cons (c : Char) (r : List Char) (rs : List (List Char)) :
    joinColonSpace ((c :: r) :: rs) = c :: joinColonSpace (r :: rs) := by
  cases rs <;> simp [joinColonSpace]

/-- Unfolding equation for `splitColonSpace` at a separator occurrence. -/
theorem splitColonSpace_sep (suf : List Char) :
    splitColonSpace (':' :: ' ' :: suf) = [] :: splitColonSpace suf := by
  simp [splitColonSpace]

/-- Unfolding equation for `splitColonSpace` away from a separator. -/
theorem splitColonSpace_cons₂ (c d : Char) (rest : List Char)
    (h : ¬(c = ':' ∧ d = ' ')) :
    splitColonSpace (c :: d :: rest) =
      match splitColonSpace (d :: rest) with
      | r :: rs => (c :: r) :: rs
      | [] => [[c]] := by
  simp only [splitColonSpace]
  rw [if_neg (by simpa [Bool.and_eq_true, decide_eq_true_eq] using h)]

/-- Rejoining the pieces of a `": "`-split restores the original line:
`": ".join(l.split(": ")) == l`. -/
theorem joinColonSpace_splitColonSpace : ∀ s, joinColonSpace (splitColonSpace s) = s := by
  intro s
  induction s using splitColonSpace.induct with
  | case1 => simp [splitColonSpace, joinColonSpace]
  | case2 c => simp [splitColonSpace, joinColonSpace]
  | case3 c d rest hcd ih =>
    have hc : c = ':' := by
      have := (Bool.and_eq_true _ _).mp hcd
      exact of_decide_eq_true this.1
    have hd : d = ' ' := by
      have := (Bool.and_eq_true _ _).mp hcd
      exact of_decide_eq_true this.2
    subst hc hd
    rw [splitColonSpace_sep]
    cases hsp : splitColonSpace rest with
    | nil => exact absurd hsp (splitColonSpace_ne_nil rest)
    | cons r rs =>
      rw [hsp] at ih
      simpa [joinColonSpace] using ih
  | case4 c d rest hcd r rs hsp ih =>
    rw [splitColonSpace_cons₂ c d rest (by simpa [Bool.and_eq_true, decide_eq_true_eq] using hcd),
      hsp]
    rw [hsp] at ih
    show joinColonSpace ((c :: r) :: rs) = c :: d :: rest
    rw [joinColonSpace_cons_cons, ih]
  | case5 c d rest hcd hsp ih => exact absurd hsp (splitColonSpace_ne_nil _)

/-- Splitting a line made of a separator-free prefix, `": "`, and an
arbitrary suffix: the prefix is the piece before the first occurrence. -/
theorem splitColonSpace_append :
    ∀ (pre suf : List Char), hasColonSpace pre = false →
      splitColonSpace (pre ++ ':' :: ' ' :: suf) = pre :: splitColonSpace suf := by
  intro pre
  induction pre with
  | nil =>
    intro suf _
    simpa using splitColonSpace_sep suf
  | cons c pre' ih =>
    intro suf hpre
    cases pre' with
    | nil =>
      show splitColonSpace (c :: ':' :: ' ' :: suf) = [c] :: splitColonSpace suf
      rw [splitColonSpace_cons₂ c ':' (' ' :: suf) (by rintro ⟨-, h⟩; exact absurd h (by decide)),
        splitColonSpace_sep]
    | cons d pre'' =>
      simp only [hasColonSpace, Bool.or_eq_false_iff] at hpre
      obtain ⟨hcd, hrest⟩ := hpre
      have hx := ih suf hrest
      show splitColonSpace (c :: ((d :: pre'') ++ ':' :: ' ' :: suf)) =
        (c :: d :: pre'') :: splitColonSpace suf
      rw [List.cons_append,
        splitColonSpace_cons₂ c d (pre'' ++ ':' :: ' ' :: suf)
          (by
            rintro ⟨h1, h2⟩
            subst h1 h2
            simp at hcd)]
      rw [List.cons_append] at hx
      rw [hx]

/-- A candidate offered by a capturing group really is a string of the
group's language. -/
theorem groupCandidates_tokOK (e : PatElem) (input t rem : List Char)
    (h : (t, rem) ∈ groupCandidates e input) : tokOK e t = true := by
  simp only [groupCandidates, List.mem_filterMap] at h
  obtain ⟨k, -, hk⟩ := h
  by_cases hok : tokOK e (input.take k) = true
  · rw [if_pos hok] at hk
    cases hk
    exact hok
  · rw [if_neg hok] at hk
    cases hk

/-- Unfolding equation of `matchElems` for a capturing-group head. -/
theorem matchElems_group_cons (e : PatElem) (rest : List PatElem) (input : List Char)
    (hg : e.isGroup = true) :
    matchElems (e :: rest) input =
      (groupCandidates e input).findSome? fun tr =>
        (matchElems rest tr.2).map fun caps => tr.1 :: caps := by
  cases e with
  | lit s => simp [PatElem.isGroup] at hg
  | groupP => rfl
  | groupW => rfl
  | groupN => rfl
  | groupI => rfl

/-- Every successful full match produces exactly one captured string per
capturing group, and each captured string belongs to its group's
language. -/
theorem matchElems_captures :
    ∀ (elems : List PatElem) (input : List Char) (caps : List (List Char)),
      matchElems elems input = some caps →
      caps.length = (elems.filter PatElem.isGroup).length ∧
      ∀ k (h1 : k < caps.length) (h2 : k < (elems.filter PatElem.isGroup).length),
        tokOK ((elems.filter PatElem.isGroup).get ⟨k, h2⟩) (caps.get ⟨k, h1⟩) = true := by
  intro elems
  induction elems with
  | nil =>
    intro input caps h
    simp only [matchElems] at h
    by_cases hi : input.isEmpty
    · rw [if_pos hi] at h
      cases h
      exact ⟨rfl, fun k h1 _ => absurd h1 (Nat.not_lt_zero k)⟩
    · rw [if_neg hi] at h
      cases h
  | cons e rest ih =>
    intro input caps h
    cases hge : e.isGroup with
    | false =>
      cases e with
      | lit s =>
        simp only [matchElems] at h
        cases hlc : litConsume s input with
        | none => rw [hlc] at h; cases h
        | some input' =>
          rw [hlc] at h
          have := ih input' caps h
          simpa [List.filter_cons, PatElem.isGroup] using this
      | groupP => simp [PatElem.isGroup] at hge
      | groupW => simp [PatElem.isGroup] at hge
      | groupN => simp [PatElem.isGroup] at hge
      | groupI => simp [PatElem.isGroup] at hge
    | true =>
      rw [matchElems_group_cons e rest input hge] at h
      obtain ⟨⟨t, rem⟩, hmem, hf⟩ := findSome?_eq_some_mem _ _ _ h
      cases hrec : matchElems rest rem with
      | none => simp [hrec] at hf
      | some caps' =>
        simp only [hrec, Option.map_some'] at hf
        cases hf
        have htok := groupCandidates_tokOK e input t rem hmem
        obtain ⟨hlen, hget⟩ := ih rem caps' hrec
        have hfe : (e :: rest).filter PatElem.isGroup =
            e :: rest.filter PatElem.isGroup := by
          simp [List.filter_cons, hge]
        rw [hfe]
        refine ⟨by simpa using hlen, fun k h1 h2 => ?_⟩
        cases k with
        | zero => simpa using htok
        | succ k =>
          simpa using hget k (by simpa using h1) (by simpa [hfe] using h2)

/-- Inserting under a different key leaves a lookup unchanged. -/
theorem dictLookup_dictInsert_ne (d : List (List Char × Value)) (k k' : List Char)
    (v : Value) (h : k' ≠ k) : dictLookup (dictInsert d k' v) k = dictLookup d k := by
  induction d with
  | nil => simp [dictInsert, dictLookup, h]
  | cons kv rest ih =>
    obtain ⟨k'', v''⟩ := kv
    simp only [dictInsert]
    by_cases hk : k'' = k'
    · rw [if_pos hk]
      simp only [dictLookup, if_neg h]
      rw [hk]
      simp [if_neg h]
    · rw [if_neg hk]
      simp only [dictLookup]
      by_cases hk2 : k'' = k
      · simp [if_pos hk2]
      · simp only [if_neg hk2]
        exact ih

/-- If no variable of the loop is named `key`, the loop of lines 146-152
never touches the entry stored under `key`. -/
theorem fillVars_lookup_preserved (key : List Char) :
    ∀ (vs : List (List Char × Char)) (toks : List (List Char))
      (d out : List (List Char × Value)),
      (∀ v ∈ vs, v.1 ≠ key) → fillVars vs toks d = .ok out →
      dictLookup out key = dictLookup d key := by
  intro vs
  induction vs with
  | nil =>
    intro toks d out _ h
    simp only [fillVars] at h
    cases h
    rfl
  | cons v vs ih =>
    intro toks d out hne h
    obtain ⟨vn, mode⟩ := v
    cases toks with
    | nil =>
      simp only [fillVars] at h
      cases h
      rfl
    | cons tok toks =>
      have hvn : vn ≠ key := hne (vn, mode) (List.mem_cons_self _ _)
      have hvs : ∀ v ∈ vs, v.1 ≠ key := fun v hv => hne v (List.mem_cons_of_mem _ hv)
      simp only [fillVars] at h
      by_cases h1 : (mode = 'p' || mode = 'w') = true
      · rw [if_pos h1] at h
        rw [ih toks _ out hvs h]
        exact dictLookup_dictInsert_ne d key vn _ hvn
      · rw [if_neg h1] at h
        by_cases h2 : (mode = 'n' || mode = 'i') = true
        · rw [if_pos h2] at h
          rw [ih toks _ out hvs h]
          exact dictLookup_dictInsert_ne d key vn _ hvn
        · rw [if_neg h2] at h
          cases h

/-- Unfolding equation for `fullmatchPlaceholder` on a two-or-more-character
token. -/
theorem fullmatchPlaceholder_cons₂ (p c : Char) (rest : List Char) :
    fullmatchPlaceholder (p :: c :: rest) =
      (if p = '%' && isLowerAZ c then
        match rest.dropWhile isNameChar with
        | x :: m :: tail =>
          if x = ':' && isModeChar m && tail.isEmpty then
            some (c :: rest.takeWhile isNameChar, m)
          else none
        | _ => none
      else none) := rfl

/-- A token accepted by the placeholder `fullmatch` of line 118 always
carries one of the four supported type tags: the second captured group
matched the class `[wpni]`. -/
theorem fullmatchPlaceholder_mode (t nm : List Char) (m : Char)
    (h : fullmatchPlaceholder t = some (nm, m)) : isModeChar m = true := by
  unfold fullmatchPlaceholder at h
  split at h
  · split at h
    · split at h
      · split at h
        · cases h
          rename_i h2
          have := (Bool.and_eq_true _ _).mp h2
          exact ((Bool.and_eq_true _ _).mp this.1).2
        · cases h
      · cases h
    · cases h
  · cases h

/-- For a supported type tag the per-type dispatch of lines 119-128
succeeds. -/
theorem modePattern_ok_of_isMode (m : Char) (h : isModeChar m = true) :
    ∃ pe, modePattern m = .ok pe := by
  simp only [isModeChar, Bool.or_eq_true, decide_eq_true_eq] at h
  rcases h with ((hw | hp) | hn) | hi
  · exact ⟨.groupW, by simp [modePattern, hw]⟩
  · exact ⟨.groupP, by simp [modePattern, hp]⟩
  · exact ⟨.groupN, by subst hn; rfl⟩
  · exact ⟨.groupI, by subst hi; rfl⟩

/-- The token loop of lines 112-129 can never raise the unsupported-type
error: the only tags reaching the dispatch come from a successful
placeholder `fullmatch`, whose tag group is drawn from `[wpni]`. -/
theorem processTokens_cons (c : Char) (rest : List Char) (ts : List (List Char)) :
    processTokens ((c :: rest) :: ts) =
      if c ≠ '%' then
        match processTokens ts with
        | .error e => .error e
        | .ok (vs, ps) => .ok (vs, .lit (c :: rest) :: ps)
      else
        match fullmatchPlaceholder (c :: rest) with
        | none => .error .attributeError
        | some (nm, mode) =>
          match modePattern mode with
          | .error e => .error e
          | .ok pe =>
            match processTokens ts with
            | .error e => .error e
            | .ok (vs, ps) => .ok ((nm, mode) :: vs, pe :: ps) := rfl

theorem processTokens_no_unsupported :
    ∀ ts : List (List Char), isUnsupportedErr (processTokens ts) = false := by
  intro ts
  induction ts with
  | nil => rfl
  | cons t ts ih =>
    cases t with
    | nil => exact ih
    | cons c rest =>
      rw [processTokens_cons]
      by_cases hc : (c ≠ '%')
      · rw [if_pos hc]
        split
        · rename_i e hts
          rw [hts] at ih
          exact ih
        · rfl
      · rw [if_neg hc]
        split
        · rfl
        · rename_i nm m hfm
          obtain ⟨pe, hpe⟩ := modePattern_ok_of_isMode m
            (fullmatchPlaceholder_mode (c :: rest) nm m hfm)
          split
          · rename_i e he
            rw [hpe] at he
            cases he
          · split
            · rename_i e hts
              rw [hts] at ih
              exact ih
            · rfl

/-- Unfolding equation for `compileLine` once the `": "`-split is known to
have at least two pieces. -/
theorem compileLine_of_split (l name r : List Char) (rs : List (List Char))
    (hsp : splitColonSpace l = name :: r :: rs) :
    compileLine l =
      if name = "rule".data then .error .reservedRuleName
      else
        match compileTemplate (joinColonSpace (r :: rs)) with
        | .error e => .error e
        | .ok (vars, pats) => .ok ⟨name, vars, pats⟩ := by
  unfold compileLine
  rw [hsp]

/-- Unfolding equation for `compileLine` when the `": "`-split has a single
piece (the line contains no separator). -/
theorem compileLine_of_split_single (l p : List Char)
    (hsp : splitColonSpace l = [p]) :
    compileLine l = .error .nameErrorLineUndefined := by
  unfold compileLine
  rw [hsp]

/-- Lifting `processTokens_no_unsupported` through `compileLine`. -/
theorem compileLine_no_unsupported (l : List Char) :
    isUnsupportedErr (compileLine l) = false := by
  cases hsp : splitColonSpace l with
  | nil => unfold compileLine; rw [hsp]; rfl
  | cons name rest =>
    cases rest with
    | nil => rw [compileLine_of_split_single l name hsp]; rfl
    | cons r rs =>
      rw [compileLine_of_split l name r rs hsp]
      by_cases hname : name = "rule".data
      · rw [if_pos hname]; rfl
      · rw [if_neg hname]
        split
        · rename_i e hct
          have hpt := processTokens_no_unsupported
            (splitTemplate (escapeSpecial (joinColonSpace (r :: rs))))
          simp only [compileTemplate] at hct
          rw [hct] at hpt
          cases e with
          | unsupportedMode m => exact absurd hpt (by simp [isUnsupportedErr])
          | nameErrorLineUndefined => rfl
          | reservedRuleName => rfl
          | attributeError => rfl
        · rfl

/-- Lifting `compileLine_no_unsupported` through the `__init__` loop. -/
theorem exceptMap_compileLine_no_unsupported (ls : List (List Char)) :
    isUnsupportedErr (exceptMap compileLine ls) = false := by
  induction ls with
  | nil => rfl
  | cons l ls ih =>
    simp only [exceptMap]
    split
    · rename_i e hl
      have := compileLine_no_unsupported l
      rw [hl] at this
      cases e with
      | unsupportedMode m => exact absurd this (by simp [isUnsupportedErr])
      | nameErrorLineUndefined => rfl
      | reservedRuleName => rfl
      | attributeError => rfl
    · split
      · rename_i e hls
        rw [hls] at ih
        exact ih
      · rfl

/-! ### The claims -/

/-- Claim C1 (code bug).  The claim says a separator-less line makes
compilation fail with a FormatError whose message contains the offending
line's text.  Compilation does fail and no rule set is produced, but the
raise at line 99 interpolates the undefined name `line` (the loop variable
is `l`), so the exception actually raised is
`NameError("name 'line' is not defined")`, whose message does not contain
the offending line. -/
theorem claim_C1_format_error_bug :
    compile "move to x".data = .error .nameErrorLineUndefined ∧
    isSubstringOf "move to x".data
      (CompileError.message .nameErrorLineUndefined) = false := by
  constructor
  · rfl
  · rfl

/-- Claim C2, counterexample.  The claim says interior blank lines are
discarded and cause no compilation error; on this source — two well-formed
rule lines separated by a blank line — compilation in fact fails (the blank
line reaches the malformed-line error path), so no rule set with one rule
per non-empty line is produced. -/
theorem claim_C2_counterexample :
    compile "a: x\n\nb: y".data = .error .nameErrorLineUndefined := by rfl

/-- Claim C2, amended.  `compile` strips the whole block, then splits on
newline KEEPING empty pieces; when compilation succeeds the rule set has
one compiled rule per line of the stripped source, in input order, and any
(blank or otherwise malformed) line makes the whole compilation fail. -/
theorem claim_C2_lines_in_order :
    (∀ (source : List Char) (rules : List CompiledRule),
       compile source = .ok rules →
       rules.length = (splitOnChar '\n' (pyStrip source)).length ∧
       ∀ k (h1 : k < (splitOnChar '\n' (pyStrip source)).length)
         (h2 : k < rules.length),
         compileLine ((splitOnChar '\n' (pyStrip source)).get ⟨k, h1⟩) =
           .ok (rules.get ⟨k, h2⟩)) ∧
    (∀ source : List Char, [] ∈ splitOnChar '\n' (pyStrip source) →
       ∃ e, compile source = .error e) := by
  constructor
  · intro source rules h
    obtain ⟨hlen, hget⟩ := exceptMap_ok_spec compileLine _ rules h
    exact ⟨hlen, fun k h1 h2 => hget k h1 h2⟩
  · intro source hmem
    exact exceptMap_error_of_mem compileLine [] .nameErrorLineUndefined _ hmem rfl

/-- Claim C2, amended, witness: a two-line source compiles to two rules in
order, and a source with a blank interior line fails. -/
theorem claim_C2_lines_in_order_witness :
    ([⟨"a".data, [], [PatElem.lit "x".data]⟩,
      ⟨"b".data, [], [PatElem.lit "y".data]⟩] : List CompiledRule).length =
      (splitOnChar '\n' (pyStrip "a: x\nb: y".data)).length ∧
    (∃ e, compile "a: x\n\nb: y".data = .error e) := by
  refine ⟨(claim_C2_lines_in_order.1 "a: x\nb: y".data _ (by rfl)).1, ?_⟩
  exact claim_C2_lines_in_order.2 "a: x\n\nb: y".data (by decide)

/-- Claim C3 (confirmed).  For a line `pre ++ ": " ++ suf` whose prefix
contains no `": "`, the compiled rule's name is `pre` and its template is
exactly `suf` — everything after the FIRST separator occurrence, rejoined
unchanged — so a template may itself contain `": "`.  The closed conjunct
shows such a separator surviving literally into the matcher: the rule
`r: a: %x:w` matches the line `a: b`. -/
theorem claim_C3_first_separator :
    (∀ pre suf : List Char, hasColonSpace pre = false → pre ≠ "rule".data →
       compileLine (pre ++ ':' :: ' ' :: suf) =
         (compileTemplate suf).map fun vp => ⟨pre, vp.1, vp.2⟩) ∧
    (∃ rules, compile "r: a: %x:w".data = .ok rules ∧
       matchRules rules "a: b".data =
         .ok [("rule".data, .str "r".data), ("x".data, .str "b".data)]) := by
  constructor
  · intro pre suf hpre hname
    have hsp := splitColonSpace_append pre suf hpre
    cases hsuf : splitColonSpace suf with
    | nil => exact absurd hsuf (splitColonSpace_ne_nil suf)
    | cons r rs =>
      rw [hsuf] at hsp
      rw [compileLine_of_split _ pre r rs hsp, if_neg hname]
      have hj : joinColonSpace (r :: rs) = suf := by
        rw [← hsuf]
        exact joinColonSpace_splitColonSpace suf
      rw [hj]
      cases hct : compileTemplate suf with
      | error e => rfl
      | ok vp => obtain ⟨vs, ps⟩ := vp; rfl
  · exact ⟨_, rfl, rfl⟩

/-- Claim C3, witness: the general statement applied to `pre = "r"`,
`suf = "a: %x:w"`. -/
theorem claim_C3_first_separator_witness :
    compileLine ("r".data ++ ':' :: ' ' :: "a: %x:w".data) =
      (compileTemplate "a: %x:w".data).map
        (fun vp => (⟨"r".data, vp.1, vp.2⟩ : CompiledRule)) :=
  claim_C3_first_separator.1 "r".data "a: %x:w".data (by decide) (by decide)

/-- Claim C4, counterexample.  With the rule line spelled exactly as the
claim gives it — `name: move to %x:i,%y:i and turn %direc:w` — the rule's
name is the text before `": "`, that is `name`, so the match result's
`rule` entry is `"name"`, not `"move"` as the claim asserts. -/
theorem claim_C4_counterexample :
    (∃ rules, compile "name: move to %x:i,%y:i and turn %direc:w".data = .ok rules ∧
       matchRules rules "move to -13,34 and turn north".data =
         .ok [("rule".data, .str "name".data), ("x".data, .int (-13)),
              ("y".data, .int 34), ("direc".data, .str "north".data)]) ∧
    Value.str "name".data ≠ Value.str "move".data := by
  exact ⟨⟨_, rfl, rfl⟩, by decide⟩

/-- Claim C4, amended (confirmed round-trip).  With the rule named `move`
(as in the module docstring, lines 47 and 70-72), matching the example line
yields exactly the claimed mapping, with `x` and `y` as integers and
`direc` as a string. -/
theorem claim_C4_roundtrip :
    ∃ rules, compile "move: move to %x:i,%y:i and turn %direc:w".data = .ok rules ∧
      matchRules rules "move to -13,34 and turn north".data =
        .ok [("rule".data, .str "move".data), ("x".data, .int (-13)),
             ("y".data, .int 34), ("direc".data, .str "north".data)] :=
  ⟨_, rfl, rfl⟩

/-- Claim C5, counterexample.  The rule set compiled from
`a: %rule:w` / `b: %y:w` gives two rules whose matchers both accept the
line `hello`, yet the result's `rule` entry is `"hello"`, not the first
rule's name `"a"`: the first rule's variable is itself named `rule`, and
the assignment loop of lines 146-150 overwrites the `rule` entry placed at
line 145. -/
theorem claim_C5_counterexample :
    compile "a: %rule:w\nb: %y:w".data =
      .ok [⟨"a".data, [("rule".data, 'w')], [.groupW]⟩,
           ⟨"b".data, [("y".data, 'w')], [.groupW]⟩] ∧
    matchElems [PatElem.groupW] "hello".data = some ["hello".data] ∧
    matchRules [⟨"a".data, [("rule".data, 'w')], [.groupW]⟩,
                ⟨"b".data, [("y".data, 'w')], [.groupW]⟩] "hello".data =
      .ok [("rule".data, .str "hello".data)] ∧
    Value.str "hello".data ≠ Value.str "a".data := by
  exact ⟨by rfl, by rfl, by rfl, by decide⟩

/-- Claim C5, amended.  `match` returns on the first rule whose matcher
accepts the line — the remaining rules do not affect the result — and the
result's `rule` entry equals the first matching rule's name PROVIDED none
of that rule's variables is itself named `rule` (such a variable overwrites
the entry). -/
theorem claim_C5_first_match_wins :
    ∀ (r : CompiledRule) (rs : List CompiledRule) (line : List Char)
      (caps : List (List Char)),
      matchElems r.pattern line = some caps →
      matchRules (r :: rs) line =
        fillVars r.vars caps [("rule".data, .str r.name)] ∧
      ((∀ v ∈ r.vars, v.1 ≠ "rule".data) → ∀ out,
         matchRules (r :: rs) line = .ok out →
         dictLookup out "rule".data = some (.str r.name)) := by
  intro r rs line caps h
  have h1 : matchRules (r :: rs) line =
      fillVars r.vars caps [("rule".data, .str r.name)] := by
    unfold matchRules
    rw [h]
  refine ⟨h1, fun hnone out hok => ?_⟩
  rw [h1] at hok
  rw [fillVars_lookup_preserved "rule".data r.vars caps _ out hnone hok]
  rfl

/-- Claim C5, amended, witness: a first rule without a variable named
`rule`, followed by a second rule; the match result comes from the first
rule and its `rule` entry is that rule's name. -/
theorem claim_C5_first_match_wins_witness :
    matchRules [⟨"a".data, [("x".data, 'w')], [.groupW]⟩,
                ⟨"b".data, [], [.lit "q".data]⟩] "hi".data =
      fillVars [("x".data, 'w')] ["hi".data]
        [("rule".data, .str "a".data)] ∧
    dictLookup [("rule".data, Value.str "a".data),
                ("x".data, Value.str "hi".data)] "rule".data =
      some (.str "a".data) := by
  have h := claim_C5_first_match_wins
    ⟨"a".data, [("x".data, 'w')], [.groupW]⟩
    [⟨"b".data, [], [.lit "q".data]⟩] "hi".data ["hi".data] (by rfl)
  exact ⟨h.1, h.2 (by decide) _ (by rfl)⟩

/-- Claim C6 (confirmed).  An `i`-typed slot stores `int(token)`, so the
captured tokens `-0` and `-5` parse to the integers `0` (minus zero) and
`-5`, and in general a minus-led token parses to the negation of its digit
run; an `n`-typed slot can only capture a non-empty all-digit token, and
`-` is not a digit, so a minus-led token can never be captured by an
`n`-typed slot. -/
theorem claim_C6_numeric_slots :
    (∀ (vn : List Char) (vs : List (List Char × Char))
       (tok : List Char) (toks : List (List Char)) (out : Dict),
       fillVars ((vn, 'i') :: vs) (tok :: toks) out =
         fillVars vs toks (dictInsert out vn (.int (pyInt tok)))) ∧
    (∀ ds : List Char, pyInt ('-' :: ds) = -(natOfDigits ds : Int)) ∧
    pyInt "-0".data = 0 ∧
    pyInt "-5".data = -5 ∧
    isDigitC '-' = false ∧
    (∀ (elems : List PatElem) (input : List Char) (caps : List (List Char)),
       matchElems elems input = some caps →
       ∀ k (h1 : k < caps.length) (h2 : k < (elems.filter PatElem.isGroup).length),
         (elems.filter PatElem.isGroup).get ⟨k, h2⟩ = .groupN →
         (caps.get ⟨k, h1⟩).isEmpty = false ∧
         (caps.get ⟨k, h1⟩).all isDigitC = true) := by
  refine ⟨fun vn vs tok toks out => rfl, fun ds => rfl, rfl, rfl, rfl,
    fun elems input caps h k h1 h2 hg => ?_⟩
  have htok := (matchElems_captures elems input caps h).2 k h1 h2
  rw [hg] at htok
  simp only [tokOK, Bool.and_eq_true, Bool.not_eq_true'] at htok
  exact htok

/-- Claim C6, witness: the `n`-slot part applied to the one-group pattern
`([0-9]+)` matching the input `7`. -/
theorem claim_C6_numeric_slots_witness :
    pyInt "-5".data = -5 ∧
    ((["7".data] : List (List Char)).get ⟨0, by decide⟩).all isDigitC = true := by
  obtain ⟨-, -, -, h5, -, hn⟩ := claim_C6_numeric_slots
  refine ⟨h5, ?_⟩
  exact (hn [PatElem.groupN] "7".data ["7".data] (by rfl) 0 (by decide) (by decide)
    (by rfl)).2

/-- Claim C7 (confirmed).  When no rule's matcher accepts the line, `match`
raises the no-match error carrying that line (line 157), and returns no
mapping. -/
theorem claim_C7_no_match_error :
    ∀ (rules : List CompiledRule) (line : List Char),
      (∀ r ∈ rules, matchElems r.pattern line = none) →
      matchRules rules line = .error (.noMatch line) := by
  intro rules line
  induction rules with
  | nil => intro _; rfl
  | cons r rs ih =>
    intro h
    unfold matchRules
    rw [h r (List.mem_cons_self r rs)]
    exact ih fun r' hr' => h r' (List.mem_cons_of_mem r hr')

/-- Claim C7, witness: a one-rule set whose literal matcher rejects the
line `zzz`. -/
theorem claim_C7_no_match_error_witness :
    matchRules [⟨"a".data, [], [.lit "b".data]⟩] "zzz".data =
      .error (.noMatch "zzz".data) :=
  claim_C7_no_match_error [⟨"a".data, [], [.lit "b".data]⟩] "zzz".data (by decide)

/-- Claim C8 (confirmed).  Every token the placeholder `fullmatch` of
line 118 accepts carries one of the four supported type tags, so the
unsupported-type branch of the dispatch at line 128 is unreachable: no
template — and hence no source — can make compilation return the
unsupported-type error. -/
theorem claim_C8_unsupported_unreachable :
    (∀ (t nm : List Char) (m : Char),
       fullmatchPlaceholder t = some (nm, m) → isModeChar m = true) ∧
    (∀ template : List Char, isUnsupportedErr (compileTemplate template) = false) ∧
    (∀ source : List Char, isUnsupportedErr (compile source) = false) := by
  refine ⟨fullmatchPlaceholder_mode, fun template => ?_, fun source => ?_⟩
  · exact processTokens_no_unsupported _
  · exact exceptMap_compileLine_no_unsupported _

/-- Claim C8, witness: the placeholder part applied to the token `%x:w`. -/
theorem claim_C8_unsupported_unreachable_witness :
    isModeChar 'w' = true ∧
    isUnsupportedErr (compile "r: %x:q".data) = false := by
  obtain ⟨h1, -, h3⟩ := claim_C8_unsupported_unreachable
  exact ⟨h1 "%x:w".data "x".data 'w' (by rfl), h3 "r: %x:q".data⟩

/-- Claim C9 (confirmed).  `match_list` returns one result per input line,
in input order; if any line's `match` raises, the whole call fails and no
list is returned; and `match_block` is exactly `match_list` applied to the
newline-split block with empty lines discarded. -/
theorem claim_C9_batch :
    (∀ (rules : List CompiledRule) (lines : List (List Char)) (as_dict : Bool)
       (results : List MatchOut),
       match_list rules lines as_dict = .ok results →
       results.length = lines.length ∧
       ∀ k (h1 : k < lines.length) (h2 : k < results.length),
         instrMatch rules (lines.get ⟨k, h1⟩) as_dict = .ok (results.get ⟨k, h2⟩)) ∧
    (∀ (rules : List CompiledRule) (lines : List (List Char)) (as_dict : Bool)
       (s : List Char) (e : MatchError), s ∈ lines →
       instrMatch rules s as_dict = .error e →
       ∃ e', match_list rules lines as_dict = .error e') ∧
    (∀ (rules : List CompiledRule) (b : List Char) (as_dict : Bool),
       match_block rules b as_dict =
         match_list rules ((splitOnChar '\n' b).filter (fun s => !s.isEmpty))
           as_dict) := by
  refine ⟨fun rules lines as_dict results h => ?_,
    fun rules lines as_dict s e hmem he => ?_, fun rules b as_dict => rfl⟩
  · exact exceptMap_ok_spec _ lines results h
  · exact exceptMap_error_of_mem _ s e lines hmem he

/-- Claim C9, witness: a two-line batch returning two results in order, and
a batch with an unmatched line failing as a whole. -/
theorem claim_C9_batch_witness :
    ([MatchOut.dataObj [("rule".data, Value.str "a".data)],
      MatchOut.dataObj [("rule".data, Value.str "a".data)]].length =
        (["b".data, "b".data] : List (List Char)).length) ∧
    (∃ e', match_list [⟨"a".data, [], [.lit "b".data]⟩]
        ["b".data, "zzz".data] false = .error e') := by
  constructor
  · exact (claim_C9_batch.1 [⟨"a".data, [], [.lit "b".data]⟩]
      ["b".data, "b".data] false _ (by rfl)).1
  · exact claim_C9_batch.2.1 [⟨"a".data, [], [.lit "b".data]⟩]
      ["b".data, "zzz".data] false "zzz".data (.noMatch "zzz".data)
      (by decide) (by rfl)

/-- Claim C10 (confirmed).  A source that is empty or all whitespace strips
to the empty string; `split("\n")` still yields the single empty line, that
line has no `": "` separator, and the malformed-line error path is taken —
an error is raised and no (empty) rule set is returned. -/
theorem claim_C10_blank_source_errors :
    ∀ code : List Char, code.all isPySpace = true →
      compile code = .error .nameErrorLineUndefined := by
  intro code h
  have hstrip : pyStrip code = [] := by
    unfold pyStrip
    have h1 : code.dropWhile isPySpace = [] :=
      List.dropWhile_eq_nil_iff.mpr fun x hx => by
        simpa using List.all_eq_true.mp h x hx
    rw [h1]
    rfl
  unfold compile
  rw [hstrip]
  rfl

/-- Claim C10, witness: a whitespace-only source. -/
theorem claim_C10_blank_source_errors_witness :
    compile "  \n\t ".data = .error .nameErrorLineUndefined :=
  claim_C10_blank_source_errors "  \n\t ".data (by decide)

end AocUtils
